import Mathlib

/-!
Shallow embedding of the liquidity-pool fetch/refine pipeline of
`src/database/fetch.py` (repository High_Liquidity_Pool_Finder), together
with theorems settling the frozen claims about it.

Conventions of the embedding:
* pandas float64 cells are modelled by `PFloat` (a rational, NaN, or a signed
  infinity); ordinary numeric fields that the code never makes NaN are plain `ℚ`;
* fallible network requests are modelled by oracles returning a sum type
  (`PageResult` / `BatchResult`); an uncaught Python exception is a distinguished
  outcome of the loop, not a Lean exception;
* Python strings are Lean `String`s, with `strLower`, `pyStrip`, `strTake`,
  `strStartsWith`, `pySplitColon` translating `str.lower`, `str.strip`,
  slicing, `str.startswith` and `str.split(":")` on the ASCII data the
  pipeline handles;
* the `use_cache` short-circuit of the two fetchers is not modelled: all fetch
  claims are about the network path (cache miss / `use_cache=False`).
-/

/-- Python `str.lower()` on the ASCII data handled by the pipeline. -/
def strLower (s : String) : String := String.mk (s.data.map Char.toLower)

/-- Python `str.strip()`: drop whitespace from both ends. -/
def pyStrip (s : String) : String :=
  String.mk (((s.data.dropWhile Char.isWhitespace).reverse.dropWhile Char.isWhitespace).reverse)

/-- Python slicing `s[:n]` on characters. -/
def strTake (s : String) (n : ℕ) : String := String.mk (s.data.take n)

/-- Python `s.startswith(pre)`. -/
def strStartsWith (s pre : String) : Bool := pre.data.isPrefixOf s.data

/-- Helper of `pySplitColon`: split a character list at every colon. -/
def splitColonAux : List Char → List Char → List (List Char)
  | [], cur => [cur.reverse]
  | c :: cs, cur => if c = ':' then cur.reverse :: splitColonAux cs [] else splitColonAux cs (c :: cur)

/-- Python `s.split(":")`. -/
def pySplitColon (s : String) : List String := (splitColonAux s.data []).map String.mk

/-- Python `round` to an integer: round half to even (bankers rounding), on the
rational model of floats. Computed on the numerator and (positive) denominator
with integer arithmetic only, so that it evaluates in the kernel: `f` is the
floor of `q` and `rnum / den` its fractional part, compared against `1/2` by
cross-multiplication. -/
def roundHalfEven (q : ℚ) : ℤ :=
  let n := q.num
  let d := (q.den : ℤ)
  let f := Int.ediv n d
  let rnum := n - f * d
  if 2 * rnum < d then f
  else if d < 2 * rnum then f + 1
  else if f % 2 = 0 then f else f + 1

/-- Python `round(x, 2)`: round to the nearest hundredth, half to even. -/
def roundQ2 (q : ℚ) : ℚ := (roundHalfEven (q * 100) : ℚ) / 100

/-- Helper of `formatUsd`: given the reversed digit run, insert a comma after
every third character (the `,` of Python format `:,`). -/
def groupRev : List Char → List Char
  | [] => []
  | [a] => [a]
  | [a, b] => [a, b]
  | [a, b, c] => [a, b, c]
  | a :: b :: c :: d :: rest => a :: b :: c :: ',' :: groupRev (d :: rest)

/-- Python `f"${x:,.0f}"`: dollar sign, value rounded half-even to zero decimal
places, digits grouped in threes by commas. -/
def formatUsd (v : ℚ) : String :=
  let n := roundHalfEven v
  let grouped := String.mk ((groupRev (Nat.toDigits 10 n.natAbs).reverse).reverse)
  if n < 0 then ("$-") ++ grouped else ("$") ++ grouped

/-- One ticker object of the CoinGecko response (the fields the code reads).
`convertedVolumeUsd` is optional because the code supplies the default `0`. -/
structure Ticker where
  base : String
  target : String
  last : Option ℚ
  convertedVolumeUsd : Option ℚ
  bidAskSpreadPercentage : Option ℚ
  trustScore : Option String
  marketName : String
  coinId : String
  targetCoinId : String
  deriving DecidableEq

/-- One row of the raw pool table built by `fetch_uniswap_v3_pools`. -/
structure PoolRow where
  page : ℕ
  base : String
  target : String
  last_price : Option ℚ
  volume_usd : ℚ
  bid_ask_spread : Option ℚ
  trust_score : Option String
  market : String
  coin_id : String
  target_coin_id : String
  deriving DecidableEq

/-- The dict appended per ticker in `fetch_uniswap_v3_pools`, tagging the row
with the page it came from and defaulting the volume to 0. -/
def mkRow (page : ℕ) (t : Ticker) : PoolRow :=
  { page := page, base := t.base, target := t.target, last_price := t.last,
    volume_usd := t.convertedVolumeUsd.getD 0,
    bid_ask_spread := t.bidAskSpreadPercentage, trust_score := t.trustScore,
    market := t.marketName, coin_id := t.coinId, target_coin_id := t.targetCoinId }

/-- One row of the DefiLlama metadata table (TokenMetadata). -/
structure MetaRow where
  address : String
  symbol : Option String
  decimals : Option ℕ
  price : Option ℚ
  deriving DecidableEq

/-- The values a pandas float64 cell takes in this pipeline: a finite rational,
NaN, or a signed infinity. -/
inductive PFloat where
  | num (q : ℚ)
  | nan
  | inf
  | ninf
  deriving DecidableEq

/-- NumPy comparison `c ≤ x` on a float cell: false for NaN and negative
infinity, true for positive infinity. -/
def PFloat.geQ : PFloat → ℚ → Bool
  | PFloat.num q, c => decide (c ≤ q)
  | PFloat.inf, _ => true
  | _, _ => false

/-- One row of the refined table produced by `integrate_metadata`: the original
columns (with `base`/`target` overwritten by symbols) plus the derived columns.
The helper columns `base_symbol`/`target_symbol` are dropped by the code and so
are absent here. -/
structure RefinedRow where
  page : ℕ
  base : String
  target : String
  last_price : Option ℚ
  volume_usd : ℚ
  bid_ask_spread : Option ℚ
  trust_score : Option String
  market : String
  coin_id : String
  target_coin_id : String
  trading_pair : String
  volume_formatted : String
  liquidity_score : PFloat
  trust_grade : String
  deriving DecidableEq

/-- The metadata lookup dict of `integrate_metadata`:
`{row['address'].lower(): row for idx, row in llama_df.iterrows()}` — later
rows overwrite earlier ones on the same key. -/
def lookupMeta (ms : List MetaRow) (key : String) : Option MetaRow :=
  ms.foldl (fun acc m => if strLower m.address = key then some m else acc) none

/-- The inner `get_symbol` of `integrate_metadata`: clean the value, and when it
is shaped like a contract address (lower-cased, `0x`-prefixed, 42 characters)
resolve it through the metadata dict, falling back to the first 8 characters of
the original value plus an ellipsis when the dict has no truthy symbol for it;
a non-address-shaped value passes through unchanged. -/
def get_symbol (ms : List MetaRow) (addr : String) : String :=
  let addrClean := strLower (pyStrip addr)
  if strStartsWith addrClean ("0x") && (addrClean.length == 42) then
    match (lookupMeta ms addrClean).bind (fun m => m.symbol) with
    | some s => if s == ("") then strTake addr 8 ++ ("...") else s
    | none => strTake addr 8 ++ ("...")
  else addr

/-- Pandas `df['volume_usd'].max()`: `None` (NaN) on an empty table. -/
def maxVolume : List PoolRow → Option ℚ
  | [] => none
  | r :: rs => some (rs.foldl (fun a x => max a x.volume_usd) r.volume_usd)

/-- Pandas semantics of `(v / M * 100).round(2)` for one cell, where `M` is the
column maximum: NaN when the table was empty; `0/0 = NaN` and `v/0 = ±inf` when
the maximum is zero; the rounded rational otherwise. -/
def liqScore (mx : Option ℚ) (v : ℚ) : PFloat :=
  match mx with
  | none => PFloat.nan
  | some M =>
    if M = 0 then
      if v = 0 then PFloat.nan else if 0 < v then PFloat.inf else PFloat.ninf
    else PFloat.num (roundQ2 (v / M * 100))

/-- The inner `trust_grade` of `integrate_metadata`, applied to a liquidity
score cell; every comparison with NaN is false, so a NaN score grades `"D"`. -/
def trust_grade (score : PFloat) : String :=
  if score.geQ 80 then ("A")
  else if score.geQ 50 then ("B")
  else if score.geQ 20 then ("C")
  else ("D")

/-- The per-row work of `integrate_metadata`: overwrite `base`/`target` with
resolved symbols, derive `trading_pair`, `volume_formatted`, `liquidity_score`
(against the whole-table maximum `mx`) and `trust_grade`, keep every other
column. -/
def refineRow (ms : List MetaRow) (mx : Option ℚ) (r : PoolRow) : RefinedRow :=
  let b := get_symbol ms r.base
  let t := get_symbol ms r.target
  let score := liqScore mx r.volume_usd
  { page := r.page, base := b, target := t, last_price := r.last_price,
    volume_usd := r.volume_usd, bid_ask_spread := r.bid_ask_spread,
    trust_score := r.trust_score, market := r.market, coin_id := r.coin_id,
    target_coin_id := r.target_coin_id,
    trading_pair := b ++ ("/") ++ t,
    volume_formatted := formatUsd r.volume_usd,
    liquidity_score := score,
    trust_grade := trust_grade score }

/-- `integrate_metadata(lp_df, llama_df)`: the refined table. The liquidity
score denominator is the maximum volume of the entire input table, computed
once. -/
def integrate_metadata (ms : List MetaRow) (rows : List PoolRow) : List RefinedRow :=
  rows.map (refineRow ms (maxVolume rows))


/-- Helper for the liquidity-score claims: rounding one hundred to two decimal
places gives back one hundred. -/
theorem roundQ2_hundred : roundQ2 100 = 100 := by
  have h : ((100 : ℚ) * 100) = 10000 := by norm_num
  have h2 : roundHalfEven (10000 : ℚ) = 10000 := by decide
  rw [roundQ2, h, h2]; norm_num

/-- A pool row whose volume is zero, giving a table whose maximum volume is
zero. -/
def c3ZeroRow : PoolRow :=
  { page := 1, base := ("WETH"), target := ("USDC"), last_price := none,
    volume_usd := 0, bid_ask_spread := none, trust_score := none,
    market := ("Uniswap V3 (Ethereum)"), coin_id := (""), target_coin_id := ("") }

/-- C3, counterexample: on a table whose maximum volume is zero the liquidity
score cell is NaN (pandas `0/0`), not the claimed `0`. -/
theorem c3_counterexample :
    ((integrate_metadata [] [c3ZeroRow]).map (fun r => r.liquidity_score)) = [PFloat.nan]
    ∧ PFloat.nan ≠ PFloat.num 0 :=
  ⟨by decide, by decide⟩

/-- C3 (amended): when the maximum volume `M` over the whole input table is
positive, every row's liquidity score is `round(volumeUsd / M * 100, 2)` with
`M` computed once over the entire table, and a row attaining the maximum scores
exactly 100; when the maximum is zero or undefined the score is NaN, not 0. -/
theorem c3_liquidity_score (ms : List MetaRow) (rows : List PoolRow) (M : ℚ)
    (hM : maxVolume rows = some M) (hpos : 0 < M) :
    ((integrate_metadata ms rows).map (fun r => r.liquidity_score))
      = rows.map (fun r => PFloat.num (roundQ2 (r.volume_usd / M * 100)))
    ∧ ∀ r ∈ rows, r.volume_usd = M →
        PFloat.num (roundQ2 (r.volume_usd / M * 100)) = PFloat.num 100 := by
  constructor
  · simp only [integrate_metadata, List.map_map]
    refine List.map_congr_left (fun r _ => ?_)
    simp [refineRow, liqScore, hM, hpos.ne']
  · intro r _ hveq
    rw [hveq, div_self hpos.ne', one_mul, roundQ2_hundred]

/-- Concrete two-row table for the C3 witness; its maximum volume is 5. -/
def c3Rows : List PoolRow :=
  [{ page := 1, base := ("WETH"), target := ("USDC"), last_price := some 1,
     volume_usd := 5, bid_ask_spread := none, trust_score := none,
     market := ("Uniswap V3 (Ethereum)"), coin_id := (""), target_coin_id := ("") },
   { page := 2, base := ("WBTC"), target := ("USDC"), last_price := some 1,
     volume_usd := 2, bid_ask_spread := none, trust_score := none,
     market := ("Uniswap V3 (Ethereum)"), coin_id := (""), target_coin_id := ("") }]

/-- Witness for `c3_liquidity_score` at a concrete two-row table. -/
theorem c3_witness :
    ((integrate_metadata [] c3Rows).map (fun r => r.liquidity_score))
      = c3Rows.map (fun r => PFloat.num (roundQ2 (r.volume_usd / 5 * 100)))
    ∧ ∀ r ∈ c3Rows, r.volume_usd = 5 →
        PFloat.num (roundQ2 (r.volume_usd / 5 * 100)) = PFloat.num 100 :=
  c3_liquidity_score [] c3Rows 5 (by decide) (by decide)

/-- Metadata table resolving one 42-character address to the symbol WETH. -/
def c6Meta : List MetaRow :=
  [{ address := ("0xaaaaaaaaaaaaaaaaaaaaaaaaaaaaaaaaaaaaaaaa"),
     symbol := some ("WETH"), decimals := some 18, price := some 1 }]

/-- A pool row whose `base` is the (upper-cased) address of `c6Meta`. -/
def c6Row : PoolRow :=
  { page := 2, base := ("0xAAAAAAAAAAAAAAAAAAAAAAAAAAAAAAAAAAAAAAAA"), target := ("USDC"),
    last_price := some 1, volume_usd := 5, bid_ask_spread := none,
    trust_score := some ("green"), market := ("Uniswap V3 (Ethereum)"),
    coin_id := ("weth"), target_coin_id := ("usd-coin") }

/-- C6, counterexample: `integrate_metadata` does not keep `base` at its raw
upstream value — the address is overwritten with the resolved symbol. -/
theorem c6_counterexample :
    ((integrate_metadata c6Meta [c6Row]).map (fun r => r.base)) ≠ [c6Row.base] := by
  decide

/-- C6 (amended): every refined row keeps all original PoolTicker fields except
`base` and `target`, which are overwritten with their resolved symbols (the
`base_symbol`/`target_symbol` helper columns are dropped from the result
schema), and carries the derived fields `trading_pair`, `volume_formatted`,
`liquidity_score`, `trust_grade` alongside. -/
theorem c6_fields (ms : List MetaRow) (rows : List PoolRow) (mx : Option ℚ) (r : PoolRow) :
    integrate_metadata ms rows = rows.map (refineRow ms (maxVolume rows))
    ∧ (refineRow ms mx r).page = r.page
    ∧ (refineRow ms mx r).last_price = r.last_price
    ∧ (refineRow ms mx r).volume_usd = r.volume_usd
    ∧ (refineRow ms mx r).bid_ask_spread = r.bid_ask_spread
    ∧ (refineRow ms mx r).trust_score = r.trust_score
    ∧ (refineRow ms mx r).market = r.market
    ∧ (refineRow ms mx r).coin_id = r.coin_id
    ∧ (refineRow ms mx r).target_coin_id = r.target_coin_id
    ∧ (refineRow ms mx r).base = get_symbol ms r.base
    ∧ (refineRow ms mx r).target = get_symbol ms r.target
    ∧ (refineRow ms mx r).trading_pair
        = get_symbol ms r.base ++ ("/") ++ get_symbol ms r.target
    ∧ (refineRow ms mx r).volume_formatted = formatUsd r.volume_usd
    ∧ (refineRow ms mx r).liquidity_score = liqScore mx r.volume_usd
    ∧ (refineRow ms mx r).trust_grade = trust_grade (liqScore mx r.volume_usd) :=
  ⟨rfl, rfl, rfl, rfl, rfl, rfl, rfl, rfl, rfl, rfl, rfl, rfl, rfl, rfl, rfl⟩

/-- C7: symbol resolution of one `base`/`target` value. A cleaned value shaped
like a contract address resolves to the metadata symbol when the lookup finds a
row with a truthy symbol; to the first 8 characters of the original value plus
an ellipsis when the lookup misses; and a non-address-shaped value passes
through unchanged. -/
theorem c7_symbol_resolution (ms : List MetaRow) (addr s : String) (m : MetaRow) :
    ((strStartsWith (strLower (pyStrip addr)) ("0x")
        && ((strLower (pyStrip addr)).length == 42)) = true →
      lookupMeta ms (strLower (pyStrip addr)) = some m → m.symbol = some s → s ≠ "" →
      get_symbol ms addr = s)
    ∧ ((strStartsWith (strLower (pyStrip addr)) ("0x")
        && ((strLower (pyStrip addr)).length == 42)) = true →
      lookupMeta ms (strLower (pyStrip addr)) = none →
      get_symbol ms addr = strTake addr 8 ++ ("..."))
    ∧ ((strStartsWith (strLower (pyStrip addr)) ("0x")
        && ((strLower (pyStrip addr)).length == 42)) = false →
      get_symbol ms addr = addr) := by
  refine ⟨?_, ?_, ?_⟩
  · intro hshape hlook hsym hs
    simp [get_symbol, hshape, hlook, hsym, hs]
  · intro hshape hlook
    simp [get_symbol, hshape, hlook]
  · intro hshape
    simp [get_symbol, hshape]

/-- The single metadata row used by the C7 witness. -/
def c7MetaRow : MetaRow :=
  { address := ("0xeeeeeeeeeeeeeeeeeeeeeeeeeeeeeeeeeeeeeeee"),
    symbol := some ("WETH"), decimals := some 18, price := some 1 }

/-- Metadata table of the C7 witness. -/
def c7Meta : List MetaRow := [c7MetaRow]

/-- A 42-character address present in `c7Meta` (up to case). -/
def c7Addr : String := "0xEEEEEEEEEEEEEEEEEEEEEEEEEEEEEEEEEEEEEEEE"

/-- A 42-character address absent from `c7Meta`. -/
def c7Miss : String := "0xbbbbbbbbbbbbbbbbbbbbbbbbbbbbbbbbbbbbbbbb"

/-- Witness for `c7_symbol_resolution`: resolved address, unresolved address,
and non-address pass-through, at concrete inputs. -/
theorem c7_witness :
    get_symbol c7Meta c7Addr = ("WETH")
    ∧ get_symbol c7Meta c7Miss = strTake c7Miss 8 ++ ("...")
    ∧ get_symbol c7Meta ("USDC") = ("USDC") := by
  refine ⟨?_, ?_, ?_⟩
  · exact (c7_symbol_resolution c7Meta c7Addr ("WETH") c7MetaRow).1
      (by decide) (by decide) (by decide) (by decide)
  · exact (c7_symbol_resolution c7Meta c7Miss ("") c7MetaRow).2.1 (by decide) (by decide)
  · exact (c7_symbol_resolution c7Meta ("USDC") ("") c7MetaRow).2.2 (by decide)

/-- C10: when the metadata row found for an address-shaped value carries a
null or empty symbol, resolution falls back to the truncated address and never
returns the null/empty symbol itself (Python truthiness of `if symbol:`). -/
theorem c10_empty_symbol_fallback (ms : List MetaRow) (addr : String) (m : MetaRow)
    (hshape : (strStartsWith (strLower (pyStrip addr)) ("0x")
        && ((strLower (pyStrip addr)).length == 42)) = true)
    (hlook : lookupMeta ms (strLower (pyStrip addr)) = some m)
    (hsym : m.symbol = none ∨ m.symbol = some ("")) :
    get_symbol ms addr = strTake addr 8 ++ ("...") := by
  rcases hsym with h | h <;> simp [get_symbol, hshape, hlook, h]

/-- Metadata row with an empty-string symbol, for the C10 witness. -/
def c10RowEmpty : MetaRow :=
  { address := ("0xcccccccccccccccccccccccccccccccccccccccc"),
    symbol := some (""), decimals := none, price := none }

/-- Metadata row with a null symbol, for the C10 witness. -/
def c10RowNone : MetaRow :=
  { address := ("0xdddddddddddddddddddddddddddddddddddddddd"),
    symbol := none, decimals := none, price := none }

/-- Metadata table of the C10 witness. -/
def c10Meta : List MetaRow := [c10RowEmpty, c10RowNone]

/-- The address of `c10RowEmpty`. -/
def c10AddrE : String := "0xcccccccccccccccccccccccccccccccccccccccc"

/-- The address of `c10RowNone`. -/
def c10AddrN : String := "0xdddddddddddddddddddddddddddddddddddddddd"

/-- Witness for `c10_empty_symbol_fallback` at both falsy-symbol shapes. -/
theorem c10_witness :
    get_symbol c10Meta c10AddrE = strTake c10AddrE 8 ++ ("...")
    ∧ get_symbol c10Meta c10AddrN = strTake c10AddrN 8 ++ ("...") := by
  constructor
  · exact c10_empty_symbol_fallback c10Meta c10AddrE c10RowEmpty
      (by decide) (by decide) (Or.inr (by decide))
  · exact c10_empty_symbol_fallback c10Meta c10AddrN c10RowNone
      (by decide) (by decide) (Or.inl (by decide))

/-- The two on-disk artifacts of one cached table: the CSV data file and the
sidecar `.hash` fingerprint file (`none` = file absent). -/
structure FsState where
  dataFile : Option String
  hashFile : Option String
  deriving DecidableEq

/-- Result of one `smart_save_csv` call: the boolean the function returns, the
files after the call, and whether the data file was written by this call. -/
structure SaveResult where
  ret : Bool
  st : FsState
  wroteData : Bool
  deriving DecidableEq

/-- `get_dataframe_hash(df)`: `None` for an empty table, otherwise the digest
of the deterministic serialization. The column-sorted CSV rendering is the
`toCsv` parameter and the md5 digest the `hashFn` parameter — both are fixed
deterministic functions, which is all the pipeline relies on. -/
def get_dataframe_hash {α : Type} (toCsv : List α → String) (hashFn : String → String)
    (rows : List α) : Option String :=
  if rows.isEmpty then none else some (hashFn (toCsv rows))

/-- `smart_save_csv(df, filename)`: skip empty tables; when both the data file
and the sidecar exist and the stored fingerprint equals the current one, return
`False` without writing; otherwise write the CSV and the new fingerprint and
return `True`. (Writes are modelled as succeeding; a reading error on the
sidecar cannot occur in the model since present files are readable strings.) -/
def smart_save_csv {α : Type} (toCsv : List α → String) (hashFn : String → String)
    (rows : List α) (st : FsState) : SaveResult :=
  if rows.isEmpty then { ret := false, st := st, wroteData := false }
  else
    let currentHash := hashFn (toCsv rows)
    match st.dataFile, st.hashFile with
    | some _, some stored =>
      if stored = currentHash then { ret := false, st := st, wroteData := false }
      else { ret := true,
             st := { dataFile := some (toCsv rows), hashFile := some currentHash },
             wroteData := true }
    | _, _ =>
      { ret := true,
        st := { dataFile := some (toCsv rows), hashFile := some currentHash },
        wroteData := true }

/-- C8: calling `smart_save_csv` twice in a row with the same non-empty table
writes the data file at most once: whatever the starting files, the second call
finds the stored fingerprint equal to the table's fingerprint, returns `False`
(unchanged) and writes neither file; and from a state without a data file the
first call does write (so the pair of calls writes exactly once). -/
theorem c8_save_unchanged {α : Type} (toCsv : List α → String) (hashFn : String → String)
    (rows : List α) (st0 : FsState) (hne : rows ≠ []) :
    (smart_save_csv toCsv hashFn rows (smart_save_csv toCsv hashFn rows st0).st).ret = false
    ∧ (smart_save_csv toCsv hashFn rows (smart_save_csv toCsv hashFn rows st0).st).wroteData
        = false
    ∧ (smart_save_csv toCsv hashFn rows (smart_save_csv toCsv hashFn rows st0).st).st
        = (smart_save_csv toCsv hashFn rows st0).st
    ∧ (st0.dataFile = none → (smart_save_csv toCsv hashFn rows st0).ret = true
        ∧ (smart_save_csv toCsv hashFn rows st0).wroteData = true) := by
  have hemp : rows.isEmpty = false := by
    cases rows with
    | nil => exact absurd rfl hne
    | cons a l => rfl
  obtain ⟨d0, h0⟩ := st0
  cases d0 with
  | none => simp [smart_save_csv, hemp]
  | some d =>
    cases h0 with
    | none => simp [smart_save_csv, hemp]
    | some h =>
      by_cases hst : h = hashFn (toCsv rows) <;>
        simp [smart_save_csv, hemp, hst]

/-- Witness for `c8_save_unchanged` at a concrete one-row table and empty
starting state. -/
theorem c8_witness :
    (smart_save_csv (fun l : List ℕ => toString l.length) (fun s => s) [7]
        (smart_save_csv (fun l : List ℕ => toString l.length) (fun s => s) [7]
          { dataFile := none, hashFile := none }).st).ret = false
    ∧ (smart_save_csv (fun l : List ℕ => toString l.length) (fun s => s) [7]
        (smart_save_csv (fun l : List ℕ => toString l.length) (fun s => s) [7]
          { dataFile := none, hashFile := none }).st).wroteData = false
    ∧ (smart_save_csv (fun l : List ℕ => toString l.length) (fun s => s) [7]
        (smart_save_csv (fun l : List ℕ => toString l.length) (fun s => s) [7]
          { dataFile := none, hashFile := none }).st).st
        = (smart_save_csv (fun l : List ℕ => toString l.length) (fun s => s) [7]
            { dataFile := none, hashFile := none }).st
    ∧ ((({ dataFile := none, hashFile := none } : FsState).dataFile = none) →
        (smart_save_csv (fun l : List ℕ => toString l.length) (fun s => s) [7]
          { dataFile := none, hashFile := none }).ret = true
        ∧ (smart_save_csv (fun l : List ℕ => toString l.length) (fun s => s) [7]
            { dataFile := none, hashFile := none }).wroteData = true) :=
  c8_save_unchanged (fun l : List ℕ => toString l.length) (fun s => s) [7]
    { dataFile := none, hashFile := none } (by decide)

/-- Outcome of one page request in `fetch_uniswap_v3_pools`:
`ok` = HTTP 200 with a parsed ticker list; `reqErr` = a raised
`requests.exceptions.RequestException`, carrying the status code of the
attached response or `none` when the exception has no response (connection
error / timeout); `otherErr` = any other exception. -/
inductive PageResult where
  | ok (tickers : List Ticker)
  | reqErr (status : Option ℕ)
  | otherErr
  deriving DecidableEq

/-- How the pagination loop ends: the function returns the accumulated rows;
an exception escapes to the caller; or the fuel bound was hit (the real loop
is still running). -/
inductive FetchOut where
  | returned (rows : List PoolRow)
  | raised
  | outOfFuel
  deriving DecidableEq

/-- Result of running the pagination loop: the pages requested, in request
order, and how the loop ended. -/
structure FetchResult where
  requested : List ℕ
  out : FetchOut
  deriving DecidableEq

/-- The `while True` pagination loop of `fetch_uniswap_v3_pools`, one step per
unit of fuel. On `ok` the rows are appended first, then the loop stops if the
page was empty or partial (< 100 tickers), else advances to the next page. On a
`RequestException` whose response has status 429 the same page is retried (the
60 s sleep is irrelevant to the model). On a `RequestException` with another
status, or any other exception, the loop breaks and the rows collected so far
are returned. On a `RequestException` with no attached response, the handler
itself evaluates `e.response.status_code` on `None` and the resulting
`AttributeError` escapes the function: outcome `raised`. -/
def fetchGo (api : ℕ → PageResult) : ℕ → ℕ → List PoolRow → List ℕ → FetchResult
  | 0, _, _, req => { requested := req.reverse, out := FetchOut.outOfFuel }
  | fuel + 1, page, acc, req =>
    match api page with
    | PageResult.ok ts =>
      let acc2 := acc ++ ts.map (mkRow page)
      if ts.isEmpty then { requested := (page :: req).reverse, out := FetchOut.returned acc2 }
      else if ts.length < 100 then
        { requested := (page :: req).reverse, out := FetchOut.returned acc2 }
      else fetchGo api fuel (page + 1) acc2 (page :: req)
    | PageResult.reqErr (some s) =>
      if s = 429 then fetchGo api fuel page acc (page :: req)
      else { requested := (page :: req).reverse, out := FetchOut.returned acc }
    | PageResult.reqErr none =>
      { requested := (page :: req).reverse, out := FetchOut.raised }
    | PageResult.otherErr =>
      { requested := (page :: req).reverse, out := FetchOut.returned acc }

/-- `fetch_uniswap_v3_pools` on a cache miss: run the pagination loop from
page 1 (each request uses `per_page=100`, which is why a full page has exactly
100 tickers). -/
def fetch_uniswap_v3_pools (api : ℕ → PageResult) (fuel : ℕ) : FetchResult :=
  fetchGo api fuel 1 [] []

/-- The ticker list a page request yields (empty for error outcomes); used to
state what the collected rows are. -/
def pageTickers (api : ℕ → PageResult) (p : ℕ) : List Ticker :=
  match api p with
  | PageResult.ok ts => ts
  | _ => []

/-- Helper run lemma for the pagination loop: if every page from `p` up to
`k - 1` answers with a full 100-ticker page and page `k` answers with a short
page, the loop started at `p` requests exactly pages `p..k` and returns the
accumulator extended with every page's rows tagged by their page. -/
theorem fetchGo_run (api : ℕ → PageResult) (k : ℕ) (tsk : List Ticker)
    (hk : api k = PageResult.ok tsk) (hshort : tsk.length < 100) :
    ∀ fuel p acc req, p ≤ k → k - p < fuel →
    (∀ j, p ≤ j → j < k → ∃ ts, api j = PageResult.ok ts ∧ ts.length = 100) →
    fetchGo api fuel p acc req =
      { requested := req.reverse ++ List.range' p (k + 1 - p),
        out := FetchOut.returned
          (acc ++ (List.range' p (k + 1 - p)).flatMap
            (fun j => (pageTickers api j).map (mkRow j))) } := by
  intro fuel
  induction fuel with
  | zero => intro p acc req _ hfuel _; omega
  | succ n ih =>
    intro p acc req hpk hfuel hfull
    rcases Nat.eq_or_lt_of_le hpk with heq | hlt
    · subst heq
      have hrange : p + 1 - p = 1 := by omega
      have hpt : pageTickers api p = tsk := by simp [pageTickers, hk]
      simp only [fetchGo, hk, hrange, List.range'_one, List.flatMap_cons,
        List.flatMap_nil, List.append_nil, hpt, List.reverse_cons]
      by_cases hempty : tsk.isEmpty <;> simp [hempty, hshort]
    · obtain ⟨ts, hts, hlen⟩ := hfull p le_rfl hlt
      have hne : ts.isEmpty = false := by
        cases ts with
        | nil => simp at hlen
        | cons a l => rfl
      have hnotshort : ¬ ts.length < 100 := by omega
      have hstep := ih (p + 1) (acc ++ ts.map (mkRow p)) (p :: req)
        (by omega) (by omega) (fun j hj1 hj2 => hfull j (by omega) hj2)
      simp only [fetchGo, hts, hne, hnotshort, if_false, Bool.false_eq_true, hstep]
      have hrange : k + 1 - p = (k - p) + 1 := by omega
      have hrange2 : k + 1 - (p + 1) = k - p := by omega
      have hpt : pageTickers api p = ts := by simp [pageTickers, hts]
      rw [hrange, hrange2, List.range'_succ]
      simp [hpt, List.append_assoc]

/-- Helper: the rows collected from `n` consecutive full pages number `100 * n`. -/
theorem length_flatMap_pages (api : ℕ → PageResult) :
    ∀ (n s : ℕ), (∀ j, s ≤ j → j < s + n → (pageTickers api j).length = 100) →
    ((List.range' s n).flatMap (fun p => (pageTickers api p).map (mkRow p))).length
      = 100 * n := by
  intro n
  induction n with
  | zero => intro s _; simp
  | succ m ih =>
    intro s hfull
    rw [List.range'_succ, List.flatMap_cons, List.length_append, List.length_map,
      hfull s le_rfl (by omega), ih (s + 1) (fun j h1 h2 => hfull j (by omega) (by omega))]
    ring

/-- C5: on a cache miss the fetcher requests pages 1, 2, … (page size 100) and
stops at the first page answering with fewer than 100 tickers (zero included):
exactly pages `1..k` are requested — no later page — and the returned table is
the concatenation of every requested page's tickers, each row tagged with the
page it came from, `100 (k-1) + |page k|` rows in total. -/
theorem c5_pagination (api : ℕ → PageResult) (k fuel : ℕ) (tsk : List Ticker)
    (hk1 : 1 ≤ k) (hk : api k = PageResult.ok tsk) (hshort : tsk.length < 100)
    (hfull : ∀ j, 1 ≤ j → j < k → ∃ ts, api j = PageResult.ok ts ∧ ts.length = 100)
    (hfuel : k ≤ fuel) :
    (fetch_uniswap_v3_pools api fuel).requested = List.range' 1 k
    ∧ (fetch_uniswap_v3_pools api fuel).out
        = FetchOut.returned ((List.range' 1 k).flatMap
            (fun p => (pageTickers api p).map (mkRow p)))
    ∧ (∀ q ∈ (fetch_uniswap_v3_pools api fuel).requested, q ≤ k)
    ∧ ((List.range' 1 k).flatMap (fun p => (pageTickers api p).map (mkRow p))).length
        = 100 * (k - 1) + tsk.length := by
  have hrun := fetchGo_run api k tsk hk hshort fuel 1 [] [] hk1 (by omega) hfull
  have hcount : k + 1 - 1 = k := by omega
  rw [hcount] at hrun
  have hreq : (fetch_uniswap_v3_pools api fuel).requested = List.range' 1 k := by
    rw [fetch_uniswap_v3_pools, hrun]; simp
  refine ⟨hreq, ?_, ?_, ?_⟩
  · rw [fetch_uniswap_v3_pools, hrun]; simp
  · intro q hq
    rw [hreq] at hq
    obtain ⟨i, hi, rfl⟩ := List.mem_range'.mp hq
    omega
  · have hsplit : List.range' 1 k = List.range' 1 (k - 1) ++ [k] := by
      have h1 : List.range' 1 (k - 1) ++ List.range' (1 + 1 * (k - 1)) 1 = List.range' 1 (1 + (k - 1)) :=
        List.range'_append 1 (k - 1) 1 1
      have h2 : 1 + 1 * (k - 1) = k := by omega
      have h3 : 1 + (k - 1) = k := by omega
      rw [h2, h3, List.range'_one] at h1
      exact h1.symm
    rw [hsplit, List.flatMap_append, List.length_append]
    have hpages : ((List.range' 1 (k - 1)).flatMap
        (fun p => (pageTickers api p).map (mkRow p))).length = 100 * (k - 1) := by
      refine length_flatMap_pages api (k - 1) 1 (fun j h1 h2 => ?_)
      obtain ⟨ts, hts, hlen⟩ := hfull j h1 (by omega)
      simp [pageTickers, hts, hlen]
    rw [hpages]
    simp [pageTickers, hk, Nat.mul_comm]

/-- The ticker used by the concrete fetch scenarios. -/
def c5Ticker : Ticker :=
  { base := ("WETH"), target := ("USDC"), last := some 1, convertedVolumeUsd := some 5,
    bidAskSpreadPercentage := none, trustScore := some ("green"),
    marketName := ("Uniswap V3 (Ethereum)"), coinId := ("weth"),
    targetCoinId := ("usd-coin") }

/-- Mocked API of the C5 witness: 100 tickers on pages 1–3, 40 on page 4. -/
def c5Api : ℕ → PageResult := fun p =>
  if p ≤ 3 then PageResult.ok (List.replicate 100 c5Ticker)
  else if p = 4 then PageResult.ok (List.replicate 40 c5Ticker)
  else PageResult.otherErr

/-- Witness for `c5_pagination`: with 100-ticker pages 1–3 and a 40-ticker
page 4, the fetcher requests exactly pages 1,2,3,4 and returns 340 tagged
rows. -/
theorem c5_witness :
    (fetch_uniswap_v3_pools c5Api 10).requested = [1, 2, 3, 4]
    ∧ (fetch_uniswap_v3_pools c5Api 10).out
        = FetchOut.returned ((List.range' 1 4).flatMap
            (fun p => (pageTickers c5Api p).map (mkRow p)))
    ∧ ((List.range' 1 4).flatMap
        (fun p => (pageTickers c5Api p).map (mkRow p))).length = 340 := by
  obtain ⟨h1, h2, _, h4⟩ := c5_pagination c5Api 4 10 (List.replicate 40 c5Ticker)
    (by omega) (by decide) (by simp) (by
      intro j hj1 hj2
      interval_cases j <;> exact ⟨List.replicate 100 c5Ticker, by decide, by simp⟩)
    (by omega)
  refine ⟨?_, h2, ?_⟩
  · rw [h1]; rfl
  · rw [h4]; simp

/-- Mocked API of the C2 failing input: page 1 succeeds with a full page and
the page-2 request raises a `RequestException` with no attached response (a
connection error / timeout). -/
def c2Api : ℕ → PageResult := fun p =>
  if p = 1 then PageResult.ok (List.replicate 100 c5Ticker) else PageResult.reqErr none

/-- C2, failing input: on a page failure with no attached HTTP response, the
429 check evaluates `e.response.status_code` on `None` and the resulting
`AttributeError` escapes `fetch_uniswap_v3_pools` (the `except Exception`
clause of the same `try` does not catch an exception raised inside the first
handler), losing the 100 rows already collected instead of returning them. -/
theorem c2_raises :
    fetch_uniswap_v3_pools c2Api 10
      = { requested := [1, 2], out := FetchOut.raised } := by decide

/-- Value attached to one key of the DefiLlama `coins` mapping. -/
structure LlamaCoin where
  symbol : Option String
  decimals : Option ℕ
  price : Option ℚ
  deriving DecidableEq

/-- Outcome of one batch request in `fetch_defillama_metadata`, one constructor
per handler of the source (same reading as `PageResult`). -/
inductive BatchResult where
  | ok (coins : List (String × LlamaCoin))
  | reqErr (status : Option ℕ)
  | otherErr
  deriving DecidableEq

/-- Helper of `batches50`: structural recursion on a fuel bounded by the list
length (dropping 50 of a non-empty list shortens it, so the fuel suffices). -/
def chunksGo : ℕ → List String → List (List String)
  | 0, _ => []
  | _, [] => []
  | fuel + 1, a :: l => (a :: l).take 50 :: chunksGo fuel ((a :: l).drop 50)

/-- The batching `for i in range(0, len(address_tokens), 50)` of
`fetch_defillama_metadata`: consecutive chunks of at most 50 addresses. -/
def batches50 (l : List String) : List (List String) := chunksGo l.length l

/-- The batch loop of `fetch_defillama_metadata`. For each batch the key list
`"ethereum:" + addr.lower()` is built and one request issued. On success one
`MetaRow` is appended per returned key (address recovered by splitting at the
colon and lower-casing). The `for` loop can only move forward: on a 429 the
code sleeps 60 s and then `continue`s — to the NEXT batch, the rate-limited
batch is never reissued — and any other handled error also continues with the
next batch. A `RequestException` with no attached response makes the handler
itself raise (`None.status_code`), aborting the whole function: outcome `none`.
Returns the requested key lists in order and the accumulated metadata. -/
def fetchLlamaGo (api : List String → BatchResult) :
    List (List String) → List (List String) → List MetaRow →
    Option (List (List String) × List MetaRow)
  | [], req, md => some (req.reverse, md)
  | b :: bs, req, md =>
    let keys := b.map (fun a => ("ethereum:") ++ strLower a)
    match api keys with
    | BatchResult.ok coins =>
      fetchLlamaGo api bs (keys :: req)
        (md ++ coins.map (fun kv =>
          { address := strLower ((pySplitColon kv.1).getD 1 ("")),
            symbol := kv.2.symbol, decimals := kv.2.decimals, price := kv.2.price }))
    | BatchResult.reqErr (some s) =>
      if s = 429 then fetchLlamaGo api bs (keys :: req) md
      else fetchLlamaGo api bs (keys :: req) md
    | BatchResult.reqErr none => none
    | BatchResult.otherErr => fetchLlamaGo api bs (keys :: req) md

/-- `fetch_defillama_metadata(token_addresses)` on a cache miss: return an
empty table at once when no addresses are given or none is `0x`/`0X`-prefixed,
otherwise run the batch loop over chunks of 50 filtered addresses. -/
def fetch_defillama_metadata (tokenAddresses : List String)
    (api : List String → BatchResult) :
    Option (List (List String) × List MetaRow) :=
  if tokenAddresses = [] then some ([], [])
  else
    let addressTokens := tokenAddresses.filter
      (fun a => strStartsWith a ("0x") || strStartsWith a ("0X"))
    if addressTokens = [] then some ([], [])
    else fetchLlamaGo api (batches50 addressTokens) [] []

/-- The 51 addresses of the C1 failing input: two batches (50 + 1). -/
def c1Addrs : List String := (List.range 51).map (fun n => ("0xtok") ++ toString n)

/-- Key list of the first batch of `c1Addrs`. -/
def c1Batch0 : List String := (c1Addrs.take 50).map (fun a => ("ethereum:") ++ strLower a)

/-- Key list of the second batch of `c1Addrs`. -/
def c1Batch1 : List String := (c1Addrs.drop 50).map (fun a => ("ethereum:") ++ strLower a)

/-- Mocked API of the C1 failing input: the 50-key batch is answered with
HTTP 429, the 1-key batch succeeds. -/
def c1Api : List String → BatchResult := fun keys =>
  if keys.length = 50 then BatchResult.reqErr (some 429)
  else BatchResult.ok
    [(("ethereum:0xtok50"), { symbol := some ("TKN"), decimals := some 18, price := some 1 })]

/-- C1, failing input: after the 429 on batch 1 the resolver advances to
batch 2 — each batch is requested exactly once, the rate-limited batch is never
reissued, and its 50 addresses' metadata is permanently lost: the result holds
only the one row of batch 2. -/
theorem c1_skips_batch :
    fetch_defillama_metadata c1Addrs c1Api
      = some ([c1Batch0, c1Batch1],
          [{ address := ("0xtok50"), symbol := some ("TKN"),
             decimals := some 18, price := some 1 }]) := by decide

/-- `df[df['volume_usd'] > threshold]`: the rows strictly above the volume
threshold. -/
def highPools (rows : List PoolRow) (thr : ℚ) : List PoolRow :=
  rows.filter (fun r => decide (thr < r.volume_usd))

/-- Number of rows of `H` on pages `1..p` — the cumulative count the analyzer
accumulates page by page. -/
def cumCount (H : List PoolRow) (p : ℕ) : ℕ :=
  (H.filter (fun r => decide (r.page ≤ p))).length

/-- `high_lps['page'].value_counts().sort_index()`, index part: the distinct
pages of `H` in ascending order. -/
def pagesSorted (H : List PoolRow) : List ℕ :=
  List.insertionSort (· ≤ ·) ((H.map (fun r => r.page)).dedup)

/-- `value_counts().sort_index()` as an association list: each distinct page in
ascending order, paired with the number of rows of `H` on it. -/
def page_counts (H : List PoolRow) : List (ℕ × ℕ) :=
  (pagesSorted H).map (fun p => (p, (H.filter (fun r => r.page == p)).length))

/-- The cumulative loop of `find_optimal_cutoff`: walk the per-page counts in
page order, and stop at the first page whose cumulative count reaches the
target, reporting that page and the cumulative count; `none` when the target
is never reached (the source leaves `optimal_page = None`). -/
def cutoffGo (target : ℕ) : List (ℕ × ℕ) → ℕ → Option (ℕ × ℕ)
  | [], _ => none
  | (p, c) :: rest, cum =>
    if target ≤ cum + c then some (p, cum + c) else cutoffGo target rest (cum + c)

/-- `int(total_high_lps * target_percentage / 100)`: the target count, with
the truncation of Python `int()` (floor for these non-negative values; for the
magnitudes at hand the float quotient rounds to the same integer). -/
def targetCount (rows : List PoolRow) (thr : ℚ) (pct : ℕ) : ℕ :=
  (highPools rows thr).length * pct / 100

/-- `find_optimal_cutoff` for one threshold of its list (the source iterates
the same body over four thresholds): `none` when no row is above the threshold
(the source `continue`s), else the first page whose cumulative above-threshold
count reaches `targetCount`, with that cumulative count. -/
def find_optimal_cutoff (rows : List PoolRow) (thr : ℚ) (targetPercentage : ℕ) :
    Option (ℕ × ℕ) :=
  let high := highPools rows thr
  if high.isEmpty then none
  else cutoffGo (high.length * targetPercentage / 100) (page_counts high) 0

/-- Monotonicity of the cumulative count under a pointwise page implication. -/
theorem cumCount_mono (H : List PoolRow) (p q : ℕ)
    (h : ∀ r ∈ H, r.page ≤ p → r.page ≤ q) : cumCount H p ≤ cumCount H q := by
  unfold cumCount
  rw [← List.countP_eq_length_filter, ← List.countP_eq_length_filter]
  refine List.countP_mono_left (fun r hr hp => ?_)
  simp only [decide_eq_true_eq] at hp ⊢
  exact h r hr hp

/-- Step identity for the cumulative count: when every row's page is at most
`b`, equal to `q`, or beyond `q` (with `b < q`), the count up to `q` is the
count up to `b` plus the number of rows on page `q` exactly. -/
theorem cumCount_step (H : List PoolRow) (b q : ℕ) (hbq : b < q)
    (hcover : ∀ r ∈ H, r.page ≤ b ∨ r.page = q ∨ q < r.page) :
    cumCount H q = cumCount H b + (H.filter (fun r => r.page == q)).length := by
  induction H with
  | nil => simp [cumCount]
  | cons r t ih =>
    have iht := ih (fun x hx => hcover x (List.mem_cons_of_mem r hx))
    simp only [cumCount, List.filter_cons] at iht ⊢
    rcases hcover r (List.mem_cons_self r t) with h1 | h2 | h3
    · have e1 : decide (r.page ≤ q) = true := by simp; omega
      have e2 : decide (r.page ≤ b) = true := by simp [h1]
      have e3 : (r.page == q) = false := by simp; omega
      simp [e1, e2, e3]
      omega
    · have e1 : decide (r.page ≤ q) = true := by simp; omega
      have e2 : decide (r.page ≤ b) = false := by simp; omega
      have e3 : (r.page == q) = true := by simp [h2]
      simp [e1, e2, e3]
      omega
    · have e1 : decide (r.page ≤ q) = false := by simp; omega
      have e2 : decide (r.page ≤ b) = false := by simp; omega
      have e3 : (r.page == q) = false := by simp; omega
      simp [e1, e2, e3]
      omega

/-- Correctness of the cumulative loop of `find_optimal_cutoff` over a sorted
distinct page list covering `H`: it returns the least page whose cumulative
count reaches the target, together with that cumulative count. -/
theorem cutoffGo_spec (H : List PoolRow) (target : ℕ) (htot : target ≤ H.length) :
    ∀ (ps : List ℕ) (b : ℕ),
      ps.Pairwise (· < ·) →
      (∀ q ∈ ps, b < q) →
      (∀ r ∈ H, r.page ≤ b ∨ r.page ∈ ps) →
      cumCount H b < target →
      ∃ p, cutoffGo target
            (ps.map (fun q => (q, (H.filter (fun r => r.page == q)).length)))
            (cumCount H b)
          = some (p, cumCount H p)
        ∧ target ≤ cumCount H p
        ∧ ∀ p2 < p, cumCount H p2 < target := by
  intro ps
  induction ps with
  | nil =>
    intro b _ _ hcover hcum
    exfalso
    have hall : cumCount H b = H.length := by
      unfold cumCount
      rw [List.filter_eq_self.mpr]
      intro r hr
      simpa using (hcover r hr).resolve_right (by simp)
    omega
  | cons q qs ih =>
    intro b hsort hgt hcover hcum
    have hbq : b < q := hgt q (List.mem_cons_self q qs)
    have hqlt : ∀ z ∈ qs, q < z := (List.pairwise_cons.mp hsort).1
    have hcover2 : ∀ r ∈ H, r.page ≤ b ∨ r.page = q ∨ q < r.page := by
      intro r hr
      rcases hcover r hr with h | h
      · exact Or.inl h
      · rcases List.mem_cons.mp h with h1 | h1
        · exact Or.inr (Or.inl h1)
        · exact Or.inr (Or.inr (hqlt _ h1))
    have hstep : cumCount H q
        = cumCount H b + (H.filter (fun r => r.page == q)).length :=
      cumCount_step H b q hbq hcover2
    by_cases hreach : target ≤ cumCount H b + (H.filter (fun r => r.page == q)).length
    · refine ⟨q, ?_, by omega, ?_⟩
      · simp only [List.map_cons, cutoffGo]
        rw [if_pos hreach, hstep]
      · intro p2 hp2
        have hle : cumCount H p2 ≤ cumCount H b := by
          refine cumCount_mono H p2 b (fun r hr hrp => ?_)
          rcases hcover2 r hr with h | h | h
          · exact h
          · omega
          · omega
        omega
    · have hnext := ih q (List.pairwise_cons.mp hsort).2 hqlt
        (by
          intro r hr
          rcases hcover2 r hr with h | h | h
          · exact Or.inl (by omega)
          · exact Or.inl (by omega)
          · rcases hcover r hr with h4 | h4
            · omega
            · rcases List.mem_cons.mp h4 with h5 | h5
              · omega
              · exact Or.inr h5)
        (by omega)
      obtain ⟨p, hp1, hp2, hp3⟩ := hnext
      refine ⟨p, ?_, hp2, hp3⟩
      simp only [List.map_cons, cutoffGo]
      rw [if_neg hreach, ← hstep]
      exact hp1

/-- C4 (amended): for a table whose pages are 1-based and a threshold with at
least one above-threshold row, provided the truncated target
`int(total * pct / 100)` is at least 1 (and `pct ≤ 100`), `find_optimal_cutoff`
reports the smallest page `p` whose cumulative above-threshold count over pages
`1..p` reaches that truncated target — not the un-truncated
`targetPercentage`-percent-of-total of the original claim — together with the
cumulative count at `p`. -/
theorem c4_cutoff (rows : List PoolRow) (thr : ℚ) (pct : ℕ)
    (hpages : ∀ r ∈ rows, 1 ≤ r.page)
    (hne : highPools rows thr ≠ [])
    (hpct : pct ≤ 100)
    (htarget : 1 ≤ targetCount rows thr pct) :
    ∃ p, find_optimal_cutoff rows thr pct = some (p, cumCount (highPools rows thr) p)
      ∧ targetCount rows thr pct ≤ cumCount (highPools rows thr) p
      ∧ ∀ p2 < p, cumCount (highPools rows thr) p2 < targetCount rows thr pct := by
  have htot : targetCount rows thr pct ≤ (highPools rows thr).length := by
    unfold targetCount
    calc (highPools rows thr).length * pct / 100
        ≤ (highPools rows thr).length * 100 / 100 :=
          Nat.div_le_div_right (Nat.mul_le_mul_left _ hpct)
      _ = (highPools rows thr).length := Nat.mul_div_cancel _ (by omega)
  have hmem : ∀ q, q ∈ pagesSorted (highPools rows thr)
      ↔ q ∈ (highPools rows thr).map (fun r => r.page) := by
    intro q
    unfold pagesSorted
    rw [(List.perm_insertionSort _ _).mem_iff, List.mem_dedup]
  have hsort : (pagesSorted (highPools rows thr)).Pairwise (· < ·) := by
    have hnd : (pagesSorted (highPools rows thr)).Nodup :=
      (List.perm_insertionSort _ _).nodup_iff.mpr (List.nodup_dedup _)
    exact List.Sorted.lt_of_le (List.sorted_insertionSort _ _) hnd
  have hgt : ∀ q ∈ pagesSorted (highPools rows thr), 0 < q := by
    intro q hq
    rw [hmem] at hq
    obtain ⟨r, hr, rfl⟩ := List.mem_map.mp hq
    exact hpages r (List.mem_of_mem_filter hr)
  have hcover : ∀ r ∈ highPools rows thr,
      r.page ≤ 0 ∨ r.page ∈ pagesSorted (highPools rows thr) := by
    intro r hr
    exact Or.inr ((hmem r.page).mpr (List.mem_map_of_mem _ hr))
  have hcum0 : cumCount (highPools rows thr) 0 = 0 := by
    unfold cumCount
    rw [List.filter_eq_nil_iff.mpr, List.length_nil]
    intro r hr
    have := hpages r (List.mem_of_mem_filter hr)
    simp
    omega
  obtain ⟨p, h1, h2, h3⟩ := cutoffGo_spec (highPools rows thr)
    (targetCount rows thr pct) htot (pagesSorted (highPools rows thr)) 0
    hsort hgt hcover (by omega)
  refine ⟨p, ?_, h2, h3⟩
  have hempty : (highPools rows thr).isEmpty = false := by
    cases hh : highPools rows thr with
    | nil => exact absurd hh hne
    | cons a l => rfl
  unfold find_optimal_cutoff
  simp only [hempty, Bool.false_eq_true, if_false]
  rw [hcum0] at h1
  exact h1

/-- One above-threshold pool row on page `p`, for the C4 fixtures. -/
def c4Row (p : ℕ) : PoolRow :=
  { page := p, base := ("WETH"), target := ("USDC"), last_price := none,
    volume_usd := 2, bid_ask_spread := none, trust_score := none,
    market := ("Uniswap V3 (Ethereum)"), coin_id := (""), target_coin_id := ("") }

/-- Seven above-threshold rows, one per page 1..7. -/
def c4Rows : List PoolRow := (List.range' 1 7).map c4Row

/-- C4, counterexample: with 7 above-threshold rows on pages 1..7 and a 90%
target, the code's truncated target is `int(7 * 90 / 100) = 6`, so it reports
page 6 capturing 6 rows — but `6/7 ≈ 85.7% < 90%`, refuting the claim that the
cumulative count at the reported page is at least `targetPercentage`% of the
total above-threshold count (that would require page 7). -/
theorem c4_counterexample :
    find_optimal_cutoff c4Rows 1 90 = some (6, 6)
    ∧ (cumCount (highPools c4Rows 1) 6) * 100 < 90 * (highPools c4Rows 1).length :=
  ⟨by decide, by decide⟩

/-- Witness for `c4_cutoff` at the seven-row fixture: the reported page is the
least page whose cumulative count reaches the truncated target 6. -/
theorem c4_witness :
    find_optimal_cutoff c4Rows 1 90 = some (6, cumCount (highPools c4Rows 1) 6)
    ∧ targetCount c4Rows 1 90 ≤ cumCount (highPools c4Rows 1) 6
    ∧ ∀ p2 < 6, cumCount (highPools c4Rows 1) p2 < targetCount c4Rows 1 90 := by
  obtain ⟨p, h1, h2, h3⟩ := c4_cutoff c4Rows 1 90 (by decide) (by decide)
    (by omega) (by decide)
  have he : find_optimal_cutoff c4Rows 1 90 = some (6, 6) := by decide
  have hpair : (p, cumCount (highPools c4Rows 1) p) = (6, 6) :=
    Option.some.inj (h1.symm.trans he)
  have hp : p = 6 := congrArg Prod.fst hpair
  subst hp
  exact ⟨h1, h2, h3⟩

/-- Order produced by pandas `nlargest(100, 'volume_usd')` with the default
`keep='first'` on index-tagged rows: strictly larger volume first, ties in
original row order. -/
def topOrder (a b : ℕ × RefinedRow) : Prop :=
  b.2.volume_usd < a.2.volume_usd ∨ (a.2.volume_usd = b.2.volume_usd ∧ a.1 < b.1)

/-- Stable descending insertion by volume: the new element goes before the
first element whose volume it reaches (so in front of nothing it ties with —
stability, given that it carries the smallest original index). -/
def insertVolDesc (x : ℕ × RefinedRow) : List (ℕ × RefinedRow) → List (ℕ × RefinedRow)
  | [] => [x]
  | y :: ys =>
    if y.2.volume_usd ≤ x.2.volume_usd then x :: y :: ys else y :: insertVolDesc x ys

/-- Stable descending insertion sort by volume — the semantics of pandas
`sort_values(descending, kind=stable)`, which is what `nlargest` with
`keep='first'` computes before truncation. -/
def sortVolDesc : List (ℕ × RefinedRow) → List (ℕ × RefinedRow)
  | [] => []
  | x :: xs => insertVolDesc x (sortVolDesc xs)

/-- `refined_df.nlargest(100, 'volume_usd')` on index-tagged rows: stable
descending sort by volume, truncated to the first 100 rows. -/
def nlargest100 (rows : List RefinedRow) : List (ℕ × RefinedRow) :=
  (sortVolDesc rows.enum).take 100

/-- Inserting permutes to consing. -/
theorem insertVolDesc_perm (x : ℕ × RefinedRow) (l : List (ℕ × RefinedRow)) :
    List.Perm (insertVolDesc x l) (x :: l) := by
  induction l with
  | nil => exact List.Perm.refl _
  | cons y ys ih =>
    by_cases h : y.2.volume_usd ≤ x.2.volume_usd
    · simp [insertVolDesc, h]
    · simp only [insertVolDesc, if_neg h]
      exact (ih.cons y).trans (List.Perm.swap x y ys)

/-- The stable sort permutes its input. -/
theorem sortVolDesc_perm (l : List (ℕ × RefinedRow)) : List.Perm (sortVolDesc l) l := by
  induction l with
  | nil => exact List.Perm.refl _
  | cons x xs ih => exact (insertVolDesc_perm x _).trans (ih.cons x)

/-- Inserting an element of smallest index into a `topOrder`-sorted list keeps
it `topOrder`-sorted. -/
theorem insertVolDesc_pairwise (x : ℕ × RefinedRow) (l : List (ℕ × RefinedRow))
    (hl : l.Pairwise topOrder) (hx : ∀ y ∈ l, x.1 < y.1) :
    (insertVolDesc x l).Pairwise topOrder := by
  induction l with
  | nil => simp [insertVolDesc]
  | cons y ys ih =>
    rcases List.pairwise_cons.mp hl with ⟨hy, hys⟩
    by_cases h : y.2.volume_usd ≤ x.2.volume_usd
    · simp only [insertVolDesc, if_pos h]
      refine List.pairwise_cons.mpr ⟨?_, hl⟩
      intro z hz
      rcases List.mem_cons.mp hz with rfl | hz2
      · rcases lt_or_eq_of_le h with hlt | heq
        · exact Or.inl hlt
        · exact Or.inr ⟨heq.symm, hx z (List.mem_cons_self _ _)⟩
      · rcases hy z hz2 with h1 | h2
        · exact Or.inl (lt_of_lt_of_le h1 h)
        · rcases lt_or_eq_of_le h with hlt | heq
          · refine Or.inl ?_
            rw [← h2.1]
            exact hlt
          · exact Or.inr ⟨heq.symm.trans h2.1, hx z (List.mem_cons_of_mem _ hz2)⟩
    · simp only [insertVolDesc, if_neg h]
      refine List.pairwise_cons.mpr
        ⟨?_, ih hys (fun z hz => hx z (List.mem_cons_of_mem _ hz))⟩
      intro z hz
      have hz2 : z = x ∨ z ∈ ys := by
        simpa using (insertVolDesc_perm x ys).mem_iff.mp hz
      rcases hz2 with rfl | hz3
      · exact Or.inl (lt_of_not_le h)
      · exact hy z hz3

/-- The stable sort of a list with strictly increasing indices is
`topOrder`-sorted: descending by volume with ties in index order. -/
theorem sortVolDesc_pairwise (l : List (ℕ × RefinedRow))
    (h : l.Pairwise (fun a b => a.1 < b.1)) :
    (sortVolDesc l).Pairwise topOrder := by
  induction l with
  | nil => simp [sortVolDesc]
  | cons x xs ih =>
    rcases List.pairwise_cons.mp h with ⟨hx, hxs⟩
    refine insertVolDesc_pairwise x _ (ih hxs) ?_
    intro y hy
    exact hx y ((sortVolDesc_perm xs).mem_iff.mp hy)

/-- The index tags of `enum` are strictly increasing. -/
theorem enum_pairwise_fst (l : List RefinedRow) :
    l.enum.Pairwise (fun a b => a.1 < b.1) := by
  have h := List.pairwise_lt_range l.length
  rw [← List.enum_map_fst l] at h
  exact List.pairwise_map.mp h

/-- C9: the Top-100 selection `nlargest(100, 'volume_usd')` keeps
`min(100, n)` rows of an `n`-row table (so never more than the input), sorted
descending by volume with ties kept in original row order (stable,
`keep='first'`), and is a sub-permutation of the indexed input rows. -/
theorem c9_top100 (rows : List RefinedRow) :
    (nlargest100 rows).length = min 100 rows.length
    ∧ (nlargest100 rows).length ≤ rows.length
    ∧ (nlargest100 rows).Pairwise topOrder
    ∧ (nlargest100 rows).Subperm rows.enum := by
  have hperm := sortVolDesc_perm rows.enum
  have hlen : (sortVolDesc rows.enum).length = rows.length := by
    rw [hperm.length_eq, List.enum_length]
  have h1 : (nlargest100 rows).length = min 100 rows.length := by
    rw [nlargest100, List.length_take, hlen]
  refine ⟨h1, by omega, ?_, ?_⟩
  · exact List.Pairwise.sublist (List.take_sublist _ _)
      (sortVolDesc_pairwise _ (enum_pairwise_fst rows))
  · exact ((List.take_sublist _ _).subperm).trans hperm.subperm
